import Mathlib

/-!
# Verification of the SilverBullet MCP server core

Shallow embedding of the repository's cache (`src/cache.ts`), SilverBullet
API client (`src/silverbullet-api.ts`), search / listing tools
(`src/mcp-server.ts`), and session lifecycle (`src/server.ts`), together
with proofs of the specification claims.

The remote note store is modelled as an opaque `Store` value: `fetchIndex`
is the outcome of `GET {base}/index.json` and `read`/`write` are the
outcomes of the per-note `GET`/`PUT` calls.  The instrumentation counters
(`listCalls`, `readCalls`, `writeCalls`) count the HTTP calls the code
issues, as the spec's call-count instrumentation demands.
-/

namespace SBMCP

/-- Note permission, the `'ro' | 'rw'` union of `types.ts`. -/
inductive Perm where
  | ro
  | rw
deriving DecidableEq, Repr

/-- Typed failure of a remote-store call: connection failure, non-2xx HTTP
status, body-parse failure (the `Error` values thrown by
`silverbullet-api.ts`), or the `Note ... not found` error thrown by
`getCachedNoteContent` in `cache.ts`. -/
inductive Err where
  | notFound (filename : String)
  | connection (msg : String)
  | httpStatus (code : Nat)
  | parseError (msg : String)
deriving DecidableEq, Repr

/-- Structure `SBFile` from `types.ts`: one entry of the store's `index.json`. -/
structure SBFile where
  name : String
  lastModified : Nat
  contentType : String
  size : Nat
  perm : Perm
deriving DecidableEq, Repr

/-- Structure `NoteInfo` from `types.ts`. -/
structure NoteInfo where
  name : String
  perm : Perm
deriving DecidableEq, Repr

/-- Structure `CacheEntry` from `types.ts`. -/
structure CacheEntry where
  content : String
  lastModified : Nat
deriving DecidableEq, Repr

/-- The remote note store, an external collaborator: the outcome of each
HTTP call the client can issue during one request. -/
structure Store where
  fetchIndex : Except Err (List SBFile)
  read : String → Except Err String
  write : String → String → Except Err Unit

/-- Mutable process state touched by the embedded code: the module-level
`contentCache` object of `cache.ts` plus HTTP call-count instrumentation. -/
structure CState where
  cache : String → Option CacheEntry
  readCalls : Nat
  listCalls : Nat
  writeCalls : Nat

/-- The empty initial state: empty `contentCache`, zero calls issued. -/
def initialCState : CState :=
  { cache := fun _ => none, readCalls := 0, listCalls := 0, writeCalls := 0 }

instance {ε α : Type} [DecidableEq ε] [DecidableEq α] : DecidableEq (Except ε α) := fun a b =>
  match a, b with
  | .ok x, .ok y =>
    if h : x = y then isTrue (by rw [h]) else isFalse (by intro hc; cases hc; exact h rfl)
  | .error x, .error y =>
    if h : x = y then isTrue (by rw [h]) else isFalse (by intro hc; cases hc; exact h rfl)
  | .ok _, .error _ => isFalse (by intro hc; cases hc)
  | .error _, .ok _ => isFalse (by intro hc; cases hc)

/-- Suffix test used to model JavaScript `name.endsWith('.md')`
(kept kernel-computable: structural `isPrefixOf` on the reversals). -/
def endsWithSuffix (suffix s : List Char) : Bool :=
  suffix.reverse.isPrefixOf s.reverse

/-- Function `getFullFileListingAPI` (`silverbullet-api.ts:71-83`): fetch
`index.json` and keep only the `.md`-suffixed entries. -/
def getFullFileListingAPI (s : Store) : Except Err (List SBFile) :=
  s.fetchIndex.map (fun fs => fs.filter (fun f => endsWithSuffix ".md".data f.name.data))

/-- Function `listNotesAPI` (`silverbullet-api.ts:31-69`): fetch `index.json`, keep
`.md` entries, project to `{name, perm}`. -/
def listNotesAPI (s : Store) : Except Err (List NoteInfo) :=
  s.fetchIndex.map (fun fs =>
    (fs.filter (fun f => endsWithSuffix ".md".data f.name.data)).map
      (fun f => { name := f.name, perm := f.perm }))

/-- One instrumented call to `getFullFileListingAPI` (one HTTP listing). -/
def getFullFileListingCall (s : Store) (st : CState) : Except Err (List SBFile) × CState :=
  (getFullFileListingAPI s, { st with listCalls := st.listCalls + 1 })

/-- One instrumented call to `listNotesAPI` (one HTTP listing). -/
def listNotesCall (s : Store) (st : CState) : Except Err (List NoteInfo) × CState :=
  (listNotesAPI s, { st with listCalls := st.listCalls + 1 })

/-- One instrumented call to `readNoteAPI` (one HTTP body read). -/
def readNoteCall (s : Store) (filename : String) (st : CState) : Except Err String × CState :=
  (s.read filename, { st with readCalls := st.readCalls + 1 })

/-- One instrumented call to `writeNoteAPI` (one HTTP `PUT`). -/
def writeNoteCall (s : Store) (filename content : String) (st : CState) :
    Except Err Unit × CState :=
  (s.write filename content, { st with writeCalls := st.writeCalls + 1 })

/-- Assignment `contentCache[filename] = entry`: whole-entry replacement in the
string-keyed cache object. -/
def cacheInsert (c : String → Option CacheEntry) (k : String) (v : CacheEntry) :
    String → Option CacheEntry :=
  fun n => if n = k then some v else c n

/-- Function `getCachedNoteContent` (`cache.ts:10-42`).  With caching disabled it
reads fresh; otherwise it fetches the full listing, fails with a not-found
error if `filename` is absent, serves the cached entry when its stored
`lastModified` is `>=` the store's reported one, and otherwise reads fresh
and replaces the cache entry. -/
def getCachedNoteContent (s : Store) (filename : String) (enableCaching : Bool)
    (st : CState) : Except Err String × CState :=
  if enableCaching = false then
    readNoteCall s filename st
  else
    match getFullFileListingCall s st with
    | (.error e, st₁) => (.error e, st₁)
    | (.ok files, st₁) =>
      match files.find? (fun f => f.name == filename) with
      | none => (.error (.notFound filename), st₁)
      | some noteInfo =>
        match st₁.cache filename with
        | some cached =>
          if noteInfo.lastModified ≤ cached.lastModified then
            (.ok cached.content, st₁)
          else
            match readNoteCall s filename st₁ with
            | (.error e, st₂) => (.error e, st₂)
            | (.ok content, st₂) =>
              (.ok content,
                { st₂ with cache := cacheInsert st₂.cache filename (CacheEntry.mk content noteInfo.lastModified) })
        | none =>
          match readNoteCall s filename st₁ with
          | (.error e, st₂) => (.error e, st₂)
          | (.ok content, st₂) =>
            (.ok content,
              { st₂ with cache := cacheInsert st₂.cache filename (CacheEntry.mk content noteInfo.lastModified) })

/-! ## Pattern model

The tools compile queries with JavaScript `new RegExp(query, flags)`.  The
regex engine is an external collaborator; we model the fragment the claims
exercise: a pattern made of literal characters and backslash-escaped
characters compiles to a literal needle, and any unescaped metacharacter
(the exact character class `[.*+?^${}()|[\]\\]` that the source escapes)
fails to compile.  This is conservative about which patterns compile, but
it is faithful on the two points the claims rest on: escaping with the
source's `escapeRegexChars` always yields a compilable literal pattern,
and unescaped group/class metacharacters such as the `(` of `"a("` make
compilation fail, as in the real engine. -/

/-- The character class `[.*+?^${}()|[\]\\]` of `mcp-server.ts:229`. -/
def isRegexMeta (c : Char) : Bool :=
  c = '.' || c = '*' || c = '+' || c = '?' || c = '^' || c = '$' || c = '{' ||
  c = '}' || c = '(' || c = ')' || c = '|' || c = '[' || c = ']' || c = '\\'

/-- The escape step `query.replace(/[.*+?^${}()|[\]\\]/g, '\\$&')`: prefix every
metacharacter with a backslash. -/
def escapeRegexChars (p : List Char) : List Char :=
  p.flatMap (fun c => if isRegexMeta c then ['\\', c] else [c])

/-- Model of `new RegExp(pattern, flags)` restricted to the literal
fragment: escaped characters denote themselves, unescaped metacharacters
(and a trailing lone backslash) are compile errors. -/
def compileRegex : List Char → Except Unit (List Char)
  | [] => .ok []
  | c :: rest =>
    if c = '\\' then
      match rest with
      | [] => .error ()
      | c₂ :: rest₂ => (compileRegex rest₂).map (fun t => c₂ :: t)
    else if isRegexMeta c then .error ()
    else (compileRegex rest).map (fun t => c :: t)

/-- Fuel-driven scan counting the non-overlapping left-to-right
occurrences of the nonempty needle `n0 :: ntail`, the match count
`[...s.matchAll(re)].length` of a global literal regex.  The fuel is the
length of the haystack, which each step strictly consumes. -/
def countOccAux (n0 : Char) (ntail : List Char) : Nat → List Char → Nat
  | 0, _ => 0
  | _, [] => 0
  | fuel + 1, c :: rest =>
    if (n0 :: ntail).isPrefixOf (c :: rest) then
      1 + countOccAux n0 ntail fuel (rest.drop ntail.length)
    else
      countOccAux n0 ntail fuel rest

/-- The match count `[...hay.matchAll(regex)].length` for a compiled literal needle.  An
empty pattern matches once at every position, as in the real engine. -/
def countMatches (needle hay : List Char) : Nat :=
  match needle with
  | [] => hay.length + 1
  | n0 :: ntail => countOccAux n0 ntail hay.length hay

/-- Match count against a string, honouring the `i` flag by lower-casing
both sides (the ASCII case-folding the notes exercise). -/
def matchCountIn (needle : List Char) (ci : Bool) (s : List Char) : Nat :=
  if ci then countMatches (needle.map Char.toLower) (s.map Char.toLower)
  else countMatches needle s

/-- JavaScript `hay.includes(needle)`. -/
def containsSub (needle hay : List Char) : Bool :=
  decide (0 < countMatches needle hay)

/-- JavaScript `content.split('\n')` on the underlying character list. -/
def splitLines : List Char → List (List Char)
  | [] => [[]]
  | c :: rest =>
    match splitLines rest with
    | [] => [[]]
    | l :: ls => if c = '\n' then [] :: l :: ls else (c :: l) :: ls

/-- JavaScript `lines.join('\n')`. -/
def joinLines : List (List Char) → List Char
  | [] => []
  | [l] => l
  | l :: l₂ :: ls => l ++ '\n' :: joinLines (l₂ :: ls)

/-- JavaScript `line.trim()`: strip whitespace from both ends. -/
def trimChars (l : List Char) : List Char :=
  ((l.dropWhile Char.isWhitespace).reverse.dropWhile Char.isWhitespace).reverse

/-! ## Search engine (`search-notes` of `mcp-server.ts:188-429`) -/

/-- The `searchType` enum of the `search-notes` tool. -/
inductive SearchType where
  | content
  | title
  | both
deriving DecidableEq, Repr

/-- Kind tag of a `SearchMatch` (`types.ts`). -/
inductive MatchType where
  | title
  | content
deriving DecidableEq, Repr

/-- Structure `SearchMatch` from `types.ts`.  `context`, `startLine` and `endLine`
are absent (`none`) exactly where the source leaves them `undefined`. -/
structure SearchMatch where
  type : MatchType
  line : Nat
  content : String
  matchCount : Nat
  context : Option String
  startLine : Option Nat
  endLine : Option Nat
deriving DecidableEq, Repr

/-- Structure `SearchResult` from `types.ts` (`matches'` embeds the source's
`matches` field, whose name Lean reserves). -/
structure SearchResult where
  filename : String
  permission : Perm
  matches' : List SearchMatch
  score : Nat
deriving DecidableEq, Repr

/-- The per-line content scan of `search-notes`
(`mcp-server.ts:258-287`): split the body into lines and emit one
content `SearchMatch` for every line with at least one occurrence,
carrying the 1-based line number, the trimmed line, the match count, and
the context window data. -/
def noteContentMatches (needle : List Char) (ci : Bool) (concise : Bool)
    (contextLines : Nat) (content : String) : List SearchMatch :=
  let lines := splitLines content.data
  lines.enum.filterMap (fun p =>
    let lineIndex := p.1
    let line := p.2
    let c := matchCountIn needle ci line
    if 0 < c then
      let contextText :=
        if concise = false ∧ 0 < contextLines then
          let startLine := lineIndex - contextLines
          let endLine := min (lines.length - 1) (lineIndex + contextLines)
          joinLines ((lines.drop startLine).take (endLine + 1 - startLine))
        else []
      some
        { type := .content
          line := lineIndex + 1
          content := String.mk (trimChars line)
          matchCount := c
          context := some (String.mk contextText)
          startLine := if 0 < contextLines then some (lineIndex - contextLines + 1) else none
          endLine :=
            if 0 < contextLines then some (min (lines.length - 1) (lineIndex + contextLines) + 1)
            else none }
    else none)

/-- The final `if (noteResults.matches.length > 0)` step of the per-note
loop (`mcp-server.ts:294-302`): a note contributes a `SearchResult`,
scored with the sum of its match counts, only if it has at least one
match. -/
def mkNoteResult (note : NoteInfo) (allMatches : List SearchMatch) : Option SearchResult :=
  if 0 < allMatches.length then
    some { filename := note.name, permission := note.perm, matches' := allMatches,
           score := (allMatches.map (fun m => m.matchCount)).sum }
  else none

/-- The per-note body of the `search-notes` loop
(`mcp-server.ts:233-303`): title matches, then content matches through the
cache, a per-note read failure being caught and skipped, then
`mkNoteResult`. -/
def noteSearchResult (s : Store) (needle : List Char) (ci : Bool) (ty : SearchType)
    (contextLines : Nat) (concise enableCaching : Bool) (note : NoteInfo) (st : CState) :
    Option SearchResult × CState :=
  let titleMatches : List SearchMatch :=
    if ty = .title ∨ ty = .both then
      let c := matchCountIn needle ci note.name.data
      if 0 < c then
        [{ type := .title, line := 0, content := note.name, matchCount := c,
           context := none, startLine := none, endLine := none }]
      else []
    else []
  let contentStep : List SearchMatch × CState :=
    if ty = .content ∨ ty = .both then
      match getCachedNoteContent s note.name enableCaching st with
      | (.ok content, st₁) => (noteContentMatches needle ci concise contextLines content, st₁)
      | (.error _, st₁) => ([], st₁)
    else ([], st)
  (mkNoteResult note (titleMatches ++ contentStep.1), contentStep.2)

/-- The `for (const note of notes)` loop of `search-notes`, threading the
cache state left to right and collecting the matching notes in listing
order. -/
def collectResults (s : Store) (needle : List Char) (ci : Bool) (ty : SearchType)
    (contextLines : Nat) (concise enableCaching : Bool) :
    List NoteInfo → CState → List SearchResult × CState
  | [], st => ([], st)
  | note :: rest, st =>
    let pr := noteSearchResult s needle ci ty contextLines concise enableCaching note st
    let tl := collectResults s needle ci ty contextLines concise enableCaching rest pr.2
    (pr.1.toList ++ tl.1, tl.2)

/-- Stable descending insertion by `score`: keeps an earlier element in
front of every later element of equal score. -/
def insertByScore (x : SearchResult) : List SearchResult → List SearchResult
  | [] => [x]
  | y :: ys => if x.score < y.score then y :: insertByScore x ys else x :: y :: ys

/-- Model of `searchResults.sort((a, b) => b.score - a.score)`
(`mcp-server.ts:306`).  ECMAScript `Array.prototype.sort` is required to
be stable, and a stable sort's output is uniquely determined by a
consistent comparator, so stable insertion sort computes the same list. -/
def sortByScoreDesc : List SearchResult → List SearchResult
  | [] => []
  | x :: xs => insertByScore x (sortByScoreDesc xs)

/-- The pagination slice of `mcp-server.ts:308-313`:
`startIndex = (page-1)*maxResults`,
`endIndex = min(startIndex + maxResults, total)`,
`slice(startIndex, endIndex)`.  Modelled for 1-based pages (`page ≥ 1`),
the parameter range the tool documents. -/
def paginateResults (l : List SearchResult) (maxResults page : Nat) : List SearchResult :=
  let startIndex := (page - 1) * maxResults
  let endIndex := min (startIndex + maxResults) l.length
  (l.drop startIndex).take (endIndex - startIndex)

/-- The page count `Math.ceil(totalResults / maxResults)` on positive integers. -/
def totalPagesFor (maxResults totalResults : Nat) : Nat :=
  (totalResults + maxResults - 1) / maxResults

/-- Everything the `search-notes` handler computes before formatting its
text block: the formatted output is a pure function of this record and of
the request parameters. -/
structure SearchOutcome where
  fallback : Bool
  results : List SearchResult
  totalResults : Nat
  totalPages : Nat
  startIndex : Nat
  paginated : List SearchResult
deriving DecidableEq, Repr

/-- The `try { new RegExp(query, flags) } catch { ... escaped ... }`
compilation step of `mcp-server.ts:225-231`, also reporting whether the
literal fallback fired.  The fallback branch always compiles (see
`compileRegex_escape`); its error case is dead code kept only for
totality. -/
def compileSearchRegex (query : String) : List Char × Bool :=
  match compileRegex query.data with
  | .ok toks => (toks, false)
  | .error _ =>
    match compileRegex (escapeRegexChars query.data) with
    | .ok toks => (toks, true)
    | .error _ => ([], true)

/-- Tool `search-notes` after pattern compilation: scan, score, sort,
paginate. -/
def searchNotesWithRegex (s : Store) (needle : List Char) (fallback : Bool)
    (ty : SearchType) (caseSensitive : Bool) (maxResults page contextLines : Nat)
    (concise enableCaching : Bool) (st : CState) : Except Err SearchOutcome × CState :=
  match listNotesCall s st with
  | (.error e, st₁) => (.error e, st₁)
  | (.ok notes, st₁) =>
    let ci := !caseSensitive
    let collected :=
      collectResults s needle ci ty contextLines concise enableCaching notes st₁
    let sorted := sortByScoreDesc collected.1
    (.ok { fallback := fallback
           results := sorted
           totalResults := sorted.length
           totalPages := totalPagesFor maxResults sorted.length
           startIndex := (page - 1) * maxResults
           paginated := paginateResults sorted maxResults page },
     collected.2)

/-- The whole `search-notes` handler (`mcp-server.ts:188-429`) up to text
formatting: list the notes, compile the query with literal fallback, then
scan, score, sort and paginate.  A listing failure propagates to the
handler's catch block; a pattern failure never does. -/
def searchNotes (s : Store) (query : String) (ty : SearchType) (caseSensitive : Bool)
    (maxResults page contextLines : Nat) (concise enableCaching : Bool) (st : CState) :
    Except Err SearchOutcome × CState :=
  let compiled := compileSearchRegex query
  searchNotesWithRegex s compiled.1 compiled.2 ty caseSensitive maxResults page
    contextLines concise enableCaching st

/-- The `contentSearch` filter loop of `list-notes`
(`mcp-server.ts:129-144`): keep the notes whose body, read through the
cache, contains the query case-insensitively; a note whose read fails is
dropped and the loop continues. -/
def contentFilter (s : Store) (contentSearch : String) :
    List NoteInfo → CState → List NoteInfo × CState
  | [], st => ([], st)
  | note :: rest, st =>
    match getCachedNoteContent s note.name true st with
    | (.ok content, st₁) =>
      let tl := contentFilter s contentSearch rest st₁
      if containsSub (contentSearch.data.map Char.toLower) (content.data.map Char.toLower) then
        (note :: tl.1, tl.2)
      else
        tl
    | (.error _, st₁) => contentFilter s contentSearch rest st₁

/-! ## `create-note` tool (`mcp-server.ts:505-571` of the tools module) -/

/-- A tool call's `{content: [{text}], isError}` response. -/
structure ToolResult where
  text : String
  isError : Bool
deriving DecidableEq, Repr

/-- The `create-note` handler with its `overwrite` flag: reject filenames
without the `.md` suffix; with `overwrite=false` first probe existence
with `readNoteAPI`, returning an already-exists error when the read
succeeds and falling through to the write when the read throws for any
reason; then `writeNoteAPI`, a write failure landing in the catch
block. -/
def createNote (s : Store) (filename content : String) (overwrite : Bool)
    (st : CState) : ToolResult × CState :=
  if endsWithSuffix ".md".data filename.data = false then
    ({ text := "Filename must end with .md extension", isError := true }, st)
  else
    let proceed : CState → ToolResult × CState := fun st₀ =>
      match writeNoteCall s filename content st₀ with
      | (.ok _, st₁) =>
        ({ text := "Successfully " ++ (if overwrite then "created/updated" else "created")
              ++ " note: " ++ filename,
           isError := false }, st₁)
      | (.error _, st₁) =>
        ({ text := "Failed to create note", isError := true }, st₁)
    if overwrite = false then
      match readNoteCall s filename st with
      | (.ok _, st₁) =>
        ({ text := "Note " ++ filename ++ " already exists. Use overwrite=true to replace it.",
           isError := true }, st₁)
      | (.error _, st₁) => proceed st₁
    else
      proceed st

/-! ## Session lifecycle (`server.ts`)

The session manager's observable state is the pair of module-level maps
`transports` and `mcpServers`, keyed by session id.  Handler/transport
instances are identified by the value of a freshness counter, so "the
same pair" is expressible.  Events model the inbound triggers: a `POST`
(which reuses a live session or creates one, registering both instances
in `onsessioninitialized` only when transport initialization confirms the
id), the `transport.onclose` callback, a `DELETE` termination (whose
`finally` block removes both entries whether or not
`transport.handleRequest` threw), and a `GET` stream request (which never
mutates the maps). -/

/-- One inbound trigger of `server.ts`.  `newSid` is the `randomUUID()`
a creating `POST` would generate, `initOk` whether transport
initialization confirmed the id (`onsessioninitialized` fired), and
`handleOk` whether `transport.handleRequest` returned without throwing
during a `DELETE`. -/
inductive SEvent where
  | post (sid? : Option String) (newSid : String) (initOk : Bool)
  | transportClose (sid? : Option String)
  | deleteReq (sid? : Option String) (handleOk : Bool)
  | getReq (sid? : Option String)
deriving DecidableEq, Repr

/-- The two module-level session maps of `server.ts:16-18` plus the
freshness counter naming instances. -/
structure SessionState where
  transports : String → Option Nat
  mcpServers : String → Option Nat
  nextId : Nat

/-- Both maps start empty. -/
def initialSessionState : SessionState :=
  { transports := fun _ => none, mcpServers := fun _ => none, nextId := 0 }

/-- Point update of a session map. -/
def mapSet (m : String → Option Nat) (k : String) (v : Option Nat) :
    String → Option Nat :=
  fun n => if n = k then v else m n

/-- One step of the session manager (`server.ts:35-156`). -/
def applyEvent (st : SessionState) (e : SEvent) : SessionState :=
  match e with
  | .post sid? newSid initOk =>
    let reuse :=
      match sid? with
      | some sid => (st.transports sid).isSome && (st.mcpServers sid).isSome
      | none => false
    if reuse then st
    else if initOk then
      { st with
        transports := mapSet st.transports newSid (some st.nextId)
        mcpServers := mapSet st.mcpServers newSid (some st.nextId)
        nextId := st.nextId + 1 }
    else
      { st with nextId := st.nextId + 1 }
  | .transportClose sid? =>
    match sid? with
    | none => st
    | some sid =>
      { st with
        transports := mapSet st.transports sid none
        mcpServers := mapSet st.mcpServers sid none }
  | .deleteReq sid? _ =>
    match sid? with
    | none => st
    | some sid =>
      if (st.transports sid).isSome then
        { st with
          transports := mapSet st.transports sid none
          mcpServers := mapSet st.mcpServers sid none }
      else st
  | .getReq _ => st

/-- Run a trace of triggers from the initial (empty-map) state. -/
def runEvents (es : List SEvent) : SessionState :=
  es.foldl applyEvent initialSessionState

/-! ## Claims C1-C3: the content cache -/

/-- C1: for a note present in the store's listing, `getCachedNoteContent`
with caching on serves the cached content with zero body reads when the
cached `lastModified` is `≥` the store's reported one, and otherwise
issues exactly one body read, replaces the whole cache entry with the
fresh content paired with the reported `lastModified`, and returns the
fresh content. -/
theorem cache_hit_and_refresh (s : Store) (st : CState) (name : String)
    (files : List SBFile) (info : SBFile)
    (hls : getFullFileListingAPI s = .ok files)
    (hfind : files.find? (fun f => f.name == name) = some info) :
    (∀ ce, st.cache name = some ce → info.lastModified ≤ ce.lastModified →
      getCachedNoteContent s name true st =
        (.ok ce.content, { st with listCalls := st.listCalls + 1 }))
    ∧ ((st.cache name = none ∨
        ∃ ce, st.cache name = some ce ∧ ce.lastModified < info.lastModified) →
      ∀ body, s.read name = .ok body →
      getCachedNoteContent s name true st =
        (.ok body,
         { cache := cacheInsert st.cache name ⟨body, info.lastModified⟩
           readCalls := st.readCalls + 1
           listCalls := st.listCalls + 1
           writeCalls := st.writeCalls })) := by
  constructor
  · intro ce hce hle
    simp [getCachedNoteContent, getFullFileListingCall, hls, hfind, hce, hle]
  · intro hmiss body hbody
    rcases hmiss with hnone | ⟨ce, hce, hlt⟩
    · simp [getCachedNoteContent, getFullFileListingCall, readNoteCall, hls, hfind,
        hnone, hbody]
    · simp [getCachedNoteContent, getFullFileListingCall, readNoteCall, hls, hfind,
        hce, Nat.not_le.mpr hlt, hbody]

/-- Concrete store used by the cache witnesses: one `.md` note named
`a.md` with body `hello` and `lastModified` 10. -/
def wStore : Store :=
  { fetchIndex := .ok [⟨"a.md", 10, "text/markdown", 5, .rw⟩]
    read := fun n => if n = "a.md" then .ok "hello" else .error (.notFound n)
    write := fun _ _ => .ok () }

/-- Witness for C1 at the listing `[a.md @ 10]` with an empty cache: one
listing call, one body read, the entry cached at timestamp 10. -/
theorem cache_hit_and_refresh_witness :
    getCachedNoteContent wStore "a.md" true initialCState =
      (.ok "hello",
       { cache := cacheInsert initialCState.cache "a.md" ⟨"hello", 10⟩
         readCalls := 1
         listCalls := 1
         writeCalls := 0 }) :=
  (cache_hit_and_refresh wStore initialCState "a.md"
      [⟨"a.md", 10, "text/markdown", 5, .rw⟩] ⟨"a.md", 10, "text/markdown", 5, .rw⟩
      (by decide) (by decide)).2
    (Or.inl rfl) "hello" (by decide)

/-- C2: with `useCache = false`, `getCachedNoteContent` issues exactly one
fresh body read whose outcome it returns unchanged, issues no listing
call, and leaves the whole state — in particular every cache entry —
untouched. -/
theorem cache_bypass (s : Store) (name : String) (st : CState) :
    getCachedNoteContent s name false st =
      (s.read name, { st with readCalls := st.readCalls + 1 }) := by
  simp [getCachedNoteContent, readNoteCall]

/-- C3: with caching on, a name absent from the fresh listing fails with
the not-found error after the single listing call, with no body read and
no cache mutation; and both a listing failure and a body-read failure
propagate to the caller unchanged, again without mutating the cache. -/
theorem cache_notFound_and_propagation (s : Store) (st : CState) (name : String) :
    (∀ files, getFullFileListingAPI s = .ok files →
      files.find? (fun f => f.name == name) = none →
      getCachedNoteContent s name true st =
        (.error (.notFound name), { st with listCalls := st.listCalls + 1 }))
    ∧ (∀ e, getFullFileListingAPI s = .error e →
      getCachedNoteContent s name true st =
        (.error e, { st with listCalls := st.listCalls + 1 }))
    ∧ (∀ files info e, getFullFileListingAPI s = .ok files →
      files.find? (fun f => f.name == name) = some info →
      (st.cache name = none ∨
        ∃ ce, st.cache name = some ce ∧ ce.lastModified < info.lastModified) →
      s.read name = .error e →
      getCachedNoteContent s name true st =
        (.error e, { st with readCalls := st.readCalls + 1, listCalls := st.listCalls + 1 })) := by
  refine ⟨?_, ?_, ?_⟩
  · intro files hls hfind
    simp [getCachedNoteContent, getFullFileListingCall, hls, hfind]
  · intro e hls
    simp [getCachedNoteContent, getFullFileListingCall, hls]
  · intro files info e hls hfind hmiss hread
    rcases hmiss with hnone | ⟨ce, hce, hlt⟩
    · simp [getCachedNoteContent, getFullFileListingCall, readNoteCall, hls, hfind,
        hnone, hread]
    · simp [getCachedNoteContent, getFullFileListingCall, readNoteCall, hls, hfind,
        hce, Nat.not_le.mpr hlt, hread]

/-- Witness for C3: `missing.md` is not in `wStore`'s listing, so the
lookup fails with the not-found error after one listing call. -/
theorem cache_notFound_and_propagation_witness :
    getCachedNoteContent wStore "missing.md" true initialCState =
      (.error (.notFound "missing.md"),
       { initialCState with listCalls := 1 }) :=
  (cache_notFound_and_propagation wStore initialCState "missing.md").1
    [⟨"a.md", 10, "text/markdown", 5, .rw⟩] (by decide) (by decide)

/-! ## Claim C4: literal fallback for malformed patterns -/

/-- Escaping every metacharacter always yields a compilable pattern, and
it compiles to the literal needle spelled by the original query. -/
theorem compileRegex_escape (p : List Char) :
    compileRegex (escapeRegexChars p) = .ok p := by
  induction p with
  | nil => rfl
  | cons c rest ih =>
    by_cases h : isRegexMeta c = true
    · have hesc : escapeRegexChars (c :: rest) = '\\' :: c :: escapeRegexChars rest := by
        simp [escapeRegexChars, h]
      rw [hesc]
      simp [compileRegex, ih, Except.map]
    · have hc : ¬ c = '\\' := by
        intro hc
        subst hc
        simp [isRegexMeta] at h
      have h' : isRegexMeta c = false := by
        simpa using h
      have hesc : escapeRegexChars (c :: rest) = c :: escapeRegexChars rest := by
        simp [escapeRegexChars, h']
      rw [hesc]
      rw [compileRegex.eq_def]
      simp [hc, h', ih, Except.map]

/-- Concrete store used by the pattern-fallback witness: one note `t.md`
whose body contains the literal text `a(`. -/
def parenStore : Store :=
  { fetchIndex := .ok [⟨"t.md", 10, "text/markdown", 4, .rw⟩]
    read := fun n => if n = "t.md" then .ok "xa(b" else .error (.notFound n)
    write := fun _ _ => .ok () }

/-- C4: whenever query compilation fails, `search-notes` escapes every
metacharacter, compiles the escaped form — which always succeeds and
denotes the query as a literal needle — flags the fallback, and the
search runs to completion with literal-substring semantics; in
particular the malformed pattern `a(` fails to compile and is searched
as the literal text `a(`. -/
theorem searchNotes_literal_fallback :
    (∀ q : String, compileRegex q.data = .error () →
      compileSearchRegex q = (q.data, true))
    ∧ (∀ (q : String) (s : Store) (ty : SearchType) (cs : Bool) (mr pg cl : Nat)
        (con ec : Bool) (st : CState), compileRegex q.data = .error () →
        searchNotes s q ty cs mr pg cl con ec st =
          searchNotesWithRegex s q.data true ty cs mr pg cl con ec st)
    ∧ compileRegex "a(".data = .error ()
    ∧ ((searchNotes parenStore "a(" .content true 10 1 1 true true
          initialCState).1.toOption.map
        (fun o => (o.fallback, o.results.map (fun r => (r.filename, r.score))))) =
      some (true, [("t.md", 1)]) := by
  refine ⟨?_, ?_, by decide, by decide⟩
  · intro q h
    simp [compileSearchRegex, h, compileRegex_escape]
  · intro q s ty cs mr pg cl con ec st h
    simp [searchNotes, compileSearchRegex, h, compileRegex_escape]

/-- Witness for C4 at the malformed pattern `a(`: compilation fails and
the compiled needle is the literal query with the fallback flag set. -/
theorem searchNotes_literal_fallback_witness :
    compileSearchRegex "a(" = ("a(".data, true) :=
  searchNotes_literal_fallback.1 "a(" (by decide)

/-! ## Claim C5: scoring and stable descending ordering -/

theorem mem_insertByScore {a x : SearchResult} {l : List SearchResult} :
    a ∈ insertByScore x l ↔ a = x ∨ a ∈ l := by
  induction l with
  | nil => simp [insertByScore]
  | cons y ys ih =>
    by_cases h : x.score < y.score
    · simp only [insertByScore, if_pos h, List.mem_cons, ih]
      tauto
    · simp only [insertByScore, if_neg h, List.mem_cons]

theorem insertByScore_pairwise (x : SearchResult) (l : List SearchResult)
    (h : l.Pairwise (fun a b => b.score ≤ a.score)) :
    (insertByScore x l).Pairwise (fun a b => b.score ≤ a.score) := by
  induction l with
  | nil => simp [insertByScore]
  | cons y ys ih =>
    rcases List.pairwise_cons.mp h with ⟨hy, hys⟩
    by_cases hx : x.score < y.score
    · rw [insertByScore, if_pos hx]
      refine List.pairwise_cons.mpr ⟨?_, ih hys⟩
      intro b hb
      rcases mem_insertByScore.mp hb with rfl | hb
      · exact Nat.le_of_lt hx
      · exact hy b hb
    · rw [insertByScore, if_neg hx]
      refine List.pairwise_cons.mpr ⟨?_, h⟩
      intro b hb
      rcases List.mem_cons.mp hb with rfl | hb
      · exact Nat.le_of_not_lt hx
      · exact Nat.le_trans (hy b hb) (Nat.le_of_not_lt hx)

theorem sortByScoreDesc_pairwise (l : List SearchResult) :
    (sortByScoreDesc l).Pairwise (fun a b => b.score ≤ a.score) := by
  induction l with
  | nil => exact List.Pairwise.nil
  | cons x xs ih => exact insertByScore_pairwise x (sortByScoreDesc xs) ih

theorem filter_insertByScore (x : SearchResult) (l : List SearchResult) (sc : Nat) :
    (insertByScore x l).filter (fun r => r.score == sc) =
      if x.score = sc then x :: l.filter (fun r => r.score == sc)
      else l.filter (fun r => r.score == sc) := by
  induction l with
  | nil => by_cases h : x.score = sc <;> simp [insertByScore, h]
  | cons y ys ih =>
    by_cases hx : x.score < y.score
    · rw [insertByScore, if_pos hx]
      by_cases hs : x.score = sc
      · have hy : ¬ y.score = sc := by omega
        simp [List.filter_cons, hs, hy, ih]
      · by_cases hys : y.score = sc <;> simp [List.filter_cons, hs, hys, ih]
    · rw [insertByScore, if_neg hx]
      by_cases hs : x.score = sc <;> simp [List.filter_cons, hs]

theorem filter_sortByScoreDesc (l : List SearchResult) (sc : Nat) :
    (sortByScoreDesc l).filter (fun r => r.score == sc) =
      l.filter (fun r => r.score == sc) := by
  induction l with
  | nil => rfl
  | cons x xs ih =>
    rw [sortByScoreDesc, filter_insertByScore]
    by_cases hs : x.score = sc <;> simp [List.filter_cons, hs, ih]

theorem mkNoteResult_score (note : NoteInfo) (ms : List SearchMatch) (r : SearchResult)
    (h : mkNoteResult note ms = some r) :
    r.score = (r.matches'.map (fun m => m.matchCount)).sum := by
  unfold mkNoteResult at h
  split at h
  · cases h
    rfl
  · cases h

theorem collectResults_score (s : Store) (needle : List Char) (ci : Bool)
    (ty : SearchType) (cl : Nat) (con ec : Bool) :
    ∀ (notes : List NoteInfo) (st : CState) (r : SearchResult),
      r ∈ (collectResults s needle ci ty cl con ec notes st).1 →
      r.score = (r.matches'.map (fun m => m.matchCount)).sum := by
  intro notes
  induction notes with
  | nil => intro st r h; simp [collectResults] at h
  | cons note rest ih =>
    intro st r h
    have h' : r ∈ (noteSearchResult s needle ci ty cl con ec note st).1.toList ++
        (collectResults s needle ci ty cl con ec rest
          (noteSearchResult s needle ci ty cl con ec note st).2).1 := h
    rcases List.mem_append.mp h' with h1 | h2
    · rcases hx : (noteSearchResult s needle ci ty cl con ec note st).1 with _ | r₀
      · rw [hx] at h1
        simp at h1
      · rw [hx] at h1
        simp at h1
        subst h1
        exact mkNoteResult_score note _ r hx
    · exact ih _ r h2

/-- Concrete store used by the scoring example: one note `n.md` with body
`Foo bar\nbaz foo`. -/
def fooStore : Store :=
  { fetchIndex := .ok [⟨"n.md", 10, "text/markdown", 15, .rw⟩]
    read := fun n => if n = "n.md" then .ok "Foo bar\nbaz foo" else .error (.notFound n)
    write := fun _ _ => .ok () }

/-- C5: every collected `SearchResult` is scored with the sum of the
`matchCount` fields of its matches; the result sequence `search-notes`
returns is the stable descending sort by score of the collected sequence
(sorted pairwise, ties keeping the collection order, which is the listing
order); and the case-insensitive content search for `foo` over the body
`Foo bar\nbaz foo` yields two content matches of one occurrence each, at
lines 1 and 2, scored 2. -/
theorem search_scoring_and_ordering :
    (∀ (s : Store) (needle : List Char) (ci : Bool) (ty : SearchType) (cl : Nat)
        (con ec : Bool) (notes : List NoteInfo) (st : CState) (r : SearchResult),
        r ∈ (collectResults s needle ci ty cl con ec notes st).1 →
        r.score = (r.matches'.map (fun m => m.matchCount)).sum)
    ∧ (∀ l : List SearchResult,
        (sortByScoreDesc l).Pairwise (fun a b => b.score ≤ a.score))
    ∧ (∀ (l : List SearchResult) (sc : Nat),
        (sortByScoreDesc l).filter (fun r => r.score == sc) =
          l.filter (fun r => r.score == sc))
    ∧ (∀ (s : Store) (q : String) (ty : SearchType) (cs : Bool) (mr pg cl : Nat)
        (con ec : Bool) (st : CState) (o : SearchOutcome) (st' : CState),
        searchNotes s q ty cs mr pg cl con ec st = (.ok o, st') →
        ∃ notes, listNotesAPI s = .ok notes ∧
          o.results = sortByScoreDesc
            (collectResults s (compileSearchRegex q).1 (!cs) ty cl con ec notes
              { st with listCalls := st.listCalls + 1 }).1)
    ∧ ((searchNotes fooStore "foo" .content false 10 1 1 true true
          initialCState).1.toOption.map
        (fun o => o.results.map (fun r =>
          (r.score, r.matches'.map (fun m => (m.line, m.matchCount)))))) =
      some [(2, [(1, 1), (2, 1)])] := by
  refine ⟨collectResults_score, sortByScoreDesc_pairwise, filter_sortByScoreDesc,
    ?_, by decide⟩
  intro s q ty cs mr pg cl con ec st o st' h
  rcases hls : listNotesAPI s with e | notes
  · simp only [searchNotes, searchNotesWithRegex, listNotesCall, hls] at h
    exact absurd (congrArg Prod.fst h) (fun hc => by cases hc)
  · simp only [searchNotes, searchNotesWithRegex, listNotesCall, hls] at h
    refine ⟨notes, rfl, ?_⟩
    have ho := congrArg Prod.fst h
    cases ho
    rfl

/-- Witness for C5's scored-result conjunct at a concrete title search:
the single result for note `foo.md` carries score 1, the sum of its one
match count. -/
theorem search_scoring_and_ordering_witness :
    SearchResult.score
        ⟨"foo.md", Perm.rw,
          [⟨MatchType.title, 0, "foo.md", 1, none, none, none⟩], 1⟩ =
      (List.map (fun m => m.matchCount)
        (SearchResult.matches'
          ⟨"foo.md", Perm.rw,
            [⟨MatchType.title, 0, "foo.md", 1, none, none, none⟩], 1⟩)).sum :=
  search_scoring_and_ordering.1 wStore "foo".data false .title 1 true true
    [⟨"foo.md", Perm.rw⟩] initialCState
    ⟨"foo.md", Perm.rw, [⟨MatchType.title, 0, "foo.md", 1, none, none, none⟩], 1⟩
    (by decide)

/-! ## Claim C6: pagination -/

theorem take_min_length {α : Type} (l : List α) (n : Nat) :
    l.take (min n l.length) = l.take n := by
  rcases Nat.le_total n l.length with h | h
  · rw [Nat.min_eq_left h]
  · rw [Nat.min_eq_right h, List.take_length, List.take_of_length_le h]

theorem paginateResults_eq (l : List SearchResult) (n p : Nat) :
    paginateResults l n p = (l.drop ((p - 1) * n)).take n := by
  show (l.drop ((p - 1) * n)).take (min ((p - 1) * n + n) l.length - (p - 1) * n) =
    (l.drop ((p - 1) * n)).take n
  rcases Nat.le_total ((p - 1) * n) l.length with h | h
  · have h1 : min ((p - 1) * n + n) l.length - (p - 1) * n =
        min n (l.length - (p - 1) * n) := by omega
    rw [h1, ← List.length_drop]
    exact take_min_length _ n
  · rw [List.drop_eq_nil_of_le h, List.take_nil, List.take_nil]

theorem ceil_chunks (n : Nat) (hn : 0 < n) :
    ∀ (len : Nat) (l : List SearchResult), l.length = len →
      (List.range ((len + n - 1) / n)).flatMap (fun i => (l.drop (i * n)).take n) = l := by
  intro len
  induction len using Nat.strong_induction_on with
  | _ len ih =>
    intro l hl
    cases l with
    | nil =>
      have h0 : len = 0 := by simpa using hl.symm
      subst h0
      rw [Nat.div_eq_of_lt (by omega)]
      rfl
    | cons x xs =>
      have hlen : 1 ≤ len := by
        rw [← hl]
        simp
      have hk : (len + n - 1) / n = ((len - n) + n - 1) / n + 1 := by
        rcases Nat.le_total n len with hc | hc
        · have h1 : len + n - 1 = (len - 1) + n := by omega
          have h2 : (len - n) + n - 1 = len - 1 := by omega
          rw [h1, h2, Nat.add_div_right _ hn]
        · have h2 : ((len - n) + n - 1) / n = 0 :=
            Nat.div_eq_of_lt (show (len - n) + n - 1 < n by omega)
          have h3 : (len + n - 1) / n = 1 :=
            Nat.div_eq_of_lt_le (show 1 * n ≤ len + n - 1 by omega)
              (show len + n - 1 < (1 + 1) * n by omega)
          rw [h2, h3]
      rw [hk, List.range_succ_eq_map, List.flatMap_cons, List.flatMap_map]
      have hstep : ∀ a : Nat, List.take n (List.drop (Nat.succ a * n) (x :: xs)) =
          List.take n (List.drop (a * n) (List.drop n (x :: xs))) := by
        intro a
        rw [List.drop_drop]
        congr 2
        rw [Nat.succ_mul, Nat.add_comm]
      simp only [hstep]
      have hlen' : ((x :: xs).drop n).length = len - n := by
        rw [List.length_drop, hl]
      rw [ih (len - n) (by omega) ((x :: xs).drop n) hlen']
      simp only [Nat.zero_mul, List.drop_zero]
      exact List.take_append_drop n (x :: xs)

/-- C6: page `p` (1-based) of size `n` is the slice
`[(p-1)*n, min(total, p*n))` of the sorted sequence; any page beyond
`ceil(total/n)` is empty rather than an error; concatenating pages
`1..ceil(total/n)` reproduces the full sorted sequence, each element
exactly once; and `search-notes` paginates its sorted results with
exactly this slice. -/
theorem search_pagination :
    (∀ (l : List SearchResult) (n p : Nat), 1 ≤ p →
      paginateResults l n p =
        (l.drop ((p - 1) * n)).take (min (p * n) l.length - (p - 1) * n))
    ∧ (∀ (l : List SearchResult) (n p : Nat), 0 < n →
      totalPagesFor n l.length < p → paginateResults l n p = [])
    ∧ (∀ (l : List SearchResult) (n : Nat), 0 < n →
      (List.range (totalPagesFor n l.length)).flatMap
        (fun i => paginateResults l n (i + 1)) = l)
    ∧ (∀ (s : Store) (q : String) (ty : SearchType) (cs : Bool) (mr pg cl : Nat)
        (con ec : Bool) (st : CState) (o : SearchOutcome) (st' : CState),
        searchNotes s q ty cs mr pg cl con ec st = (.ok o, st') →
        o.paginated = paginateResults o.results mr pg) := by
  refine ⟨?_, ?_, ?_, ?_⟩
  · intro l n p hp
    obtain ⟨p', rfl⟩ : ∃ p', p = p' + 1 := ⟨p - 1, by omega⟩
    rw [paginateResults_eq]
    simp only [Nat.add_sub_cancel]
    have h1 : min ((p' + 1) * n) l.length - p' * n = min n (l.length - p' * n) ∨
        l.length ≤ p' * n := by
      rcases Nat.le_total (p' * n) l.length with h | h
      · left
        rw [Nat.succ_mul]
        omega
      · right
        exact h
    rcases h1 with h1 | h1
    · rw [h1, ← List.length_drop, take_min_length]
    · rw [List.drop_eq_nil_of_le h1, List.take_nil, List.take_nil]
  · intro l n p hn hp
    rw [paginateResults_eq]
    have h1 : l.length + n - 1 < p * n := by
      have := (Nat.div_lt_iff_lt_mul hn).mp hp
      exact this
    have h2 : l.length ≤ (p - 1) * n := by
      rw [Nat.sub_mul]
      generalize p * n = m at h1 ⊢
      omega
    rw [List.drop_eq_nil_of_le h2, List.take_nil]
  · intro l n hn
    have hstep : ∀ i : Nat, paginateResults l n (i + 1) = (l.drop (i * n)).take n := by
      intro i
      rw [paginateResults_eq]
      simp
    simp only [hstep]
    exact ceil_chunks n hn l.length l rfl
  · intro s q ty cs mr pg cl con ec st o st' h
    rcases hls : listNotesAPI s with e | notes
    · simp only [searchNotes, searchNotesWithRegex, listNotesCall, hls] at h
      exact absurd (congrArg Prod.fst h) (fun hc => by cases hc)
    · simp only [searchNotes, searchNotesWithRegex, listNotesCall, hls] at h
      have ho := congrArg Prod.fst h
      cases ho
      rfl

/-- Witness for C6: three one-match results paged two at a time
concatenate back to the original sorted sequence. -/
theorem search_pagination_witness :
    (List.range (totalPagesFor 2
        ([⟨"a.md", Perm.rw, [], 3⟩, ⟨"b.md", Perm.rw, [], 2⟩,
          ⟨"c.md", Perm.ro, [], 1⟩] : List SearchResult).length)).flatMap
      (fun i => paginateResults
        [⟨"a.md", Perm.rw, [], 3⟩, ⟨"b.md", Perm.rw, [], 2⟩, ⟨"c.md", Perm.ro, [], 1⟩]
        2 (i + 1)) =
    [⟨"a.md", Perm.rw, [], 3⟩, ⟨"b.md", Perm.rw, [], 2⟩, ⟨"c.md", Perm.ro, [], 1⟩] :=
  search_pagination.2.2.1
    [⟨"a.md", Perm.rw, [], 3⟩, ⟨"b.md", Perm.rw, [], 2⟩, ⟨"c.md", Perm.ro, [], 1⟩]
    2 (by decide)

/-! ## Claim C7: per-note read failures during multi-note scans

The code skips a failing note and completes the scan, but neither
`search-notes` nor the `list-notes` content filter accumulates the
failure into any returned error list: the failure is only written to the
console log.  The counterexample exhibits a run with a failing note whose
entire outcome is identical to a run in which that note merely has no
match, so no failure report exists anywhere in the returned result. -/

/-- Store whose note `a.md` fails to read with a connection error while
`b.md` reads `x`. -/
def failStoreA : Store :=
  { fetchIndex := .ok [⟨"a.md", 10, "text/markdown", 1, .rw⟩,
                       ⟨"b.md", 10, "text/markdown", 1, .rw⟩]
    read := fun n => if n = "b.md" then .ok "x" else .error (.connection "refused")
    write := fun _ _ => .ok () }

/-- Identical store except that `a.md` reads successfully as the empty
body (which contains no match for `x`). -/
def failStoreB : Store :=
  { fetchIndex := .ok [⟨"a.md", 10, "text/markdown", 1, .rw⟩,
                       ⟨"b.md", 10, "text/markdown", 1, .rw⟩]
    read := fun n => if n = "b.md" then .ok "x"
      else if n = "a.md" then .ok "" else .error (.notFound n)
    write := fun _ _ => .ok () }

/-- Counterexample to C7 as stated: searching `x` over `failStoreA`,
where reading `a.md` throws, produces an outcome identical to the run
over `failStoreB`, where `a.md` reads fine and simply has no match — so
the read failure is reported in no aggregate error list (nor anywhere
else in the result); the scan still completes with the results of the
other notes. -/
theorem search_no_error_list_counterexample :
    ((searchNotes failStoreA "x" .content true 10 1 1 true true initialCState).1 =
      (searchNotes failStoreB "x" .content true 10 1 1 true true initialCState).1)
    ∧ ((searchNotes failStoreA "x" .content true 10 1 1 true true
          initialCState).1.toOption.map
        (fun o => o.results.map (fun r => r.filename))) = some ["b.md"] :=
  ⟨by decide, by decide⟩

/-- C7 as amended: in both multi-note scans a note whose body read fails
is skipped — contributing no content matches in `search-notes` and being
dropped by the `list-notes` content filter — the loop structurally
continues with every remaining note, and the failure is reported only to
the console log, not in any returned error list. -/
theorem search_skip_failed_note :
    (∀ (s : Store) (needle : List Char) (ci : Bool) (cl : Nat) (con ec : Bool)
        (note : NoteInfo) (st : CState) (e : Err),
        (getCachedNoteContent s note.name ec st).1 = .error e →
        noteSearchResult s needle ci .content cl con ec note st =
          (none, (getCachedNoteContent s note.name ec st).2))
    ∧ (∀ (s : Store) (needle : List Char) (ci : Bool) (ty : SearchType) (cl : Nat)
        (con ec : Bool) (note : NoteInfo) (rest : List NoteInfo) (st : CState),
        collectResults s needle ci ty cl con ec (note :: rest) st =
          ((noteSearchResult s needle ci ty cl con ec note st).1.toList ++
            (collectResults s needle ci ty cl con ec rest
              (noteSearchResult s needle ci ty cl con ec note st).2).1,
           (collectResults s needle ci ty cl con ec rest
             (noteSearchResult s needle ci ty cl con ec note st).2).2))
    ∧ (∀ (s : Store) (q : String) (note : NoteInfo) (rest : List NoteInfo)
        (st : CState) (e : Err),
        (getCachedNoteContent s note.name true st).1 = .error e →
        contentFilter s q (note :: rest) st =
          contentFilter s q rest (getCachedNoteContent s note.name true st).2)
    ∧ (contentFilter failStoreA "x" [⟨"a.md", Perm.rw⟩, ⟨"b.md", Perm.rw⟩]
        initialCState).1 = [⟨"b.md", Perm.rw⟩] := by
  refine ⟨?_, ?_, ?_, by decide⟩
  · intro s needle ci cl con ec note st e h
    rcases hg : getCachedNoteContent s note.name ec st with ⟨res, st₁⟩
    rw [hg] at h
    simp only at h
    subst h
    simp [noteSearchResult, mkNoteResult, hg]
  · intro s needle ci ty cl con ec note rest st
    rfl
  · intro s q note rest st e h
    rcases hg : getCachedNoteContent s note.name true st with ⟨res, st₁⟩
    rw [hg] at h
    simp only at h
    subst h
    simp [contentFilter, hg]

/-- Witness for the amended C7 at a concrete failing read: note `a.md` of
`failStoreA` contributes no `SearchResult` and the loop hands the
post-read state to the rest of the scan. -/
theorem search_skip_failed_note_witness :
    noteSearchResult failStoreA "x".data false .content 1 true true
        ⟨"a.md", Perm.rw⟩ initialCState =
      (none, (getCachedNoteContent failStoreA "a.md" true initialCState).2) :=
  search_skip_failed_note.1 failStoreA "x".data false 1 true true
    ⟨"a.md", Perm.rw⟩ initialCState (Err.connection "refused") (by decide)

/-! ## Claims C8-C9: session lifecycle -/

theorem applyEvent_paired (st : SessionState) (e : SEvent)
    (h : ∀ sid, (st.transports sid).isSome = (st.mcpServers sid).isSome) :
    ∀ sid, ((applyEvent st e).transports sid).isSome =
      ((applyEvent st e).mcpServers sid).isSome := by
  intro sid
  cases e with
  | post sid? newSid initOk =>
    simp only [applyEvent]
    split
    · exact h sid
    · split
      · simp only [mapSet]
        by_cases hs : sid = newSid
        · simp [hs]
        · simp [hs, h sid]
      · exact h sid
  | transportClose sid? =>
    cases sid? with
    | none => exact h sid
    | some s0 =>
      simp only [applyEvent, mapSet]
      by_cases hs : sid = s0
      · simp [hs]
      · simp [hs, h sid]
  | deleteReq sid? ok =>
    cases sid? with
    | none => exact h sid
    | some s0 =>
      simp only [applyEvent]
      split
      · simp only [mapSet]
        by_cases hs : sid = s0
        · simp [hs]
        · simp [hs, h sid]
      · exact h sid
  | getReq sid? => exact h sid

/-- C8: in every state reachable by any trace of session triggers, the
transport map and the handler map hold exactly the same session ids (each
id binding at most one live pair, since the maps are functional); and a
`POST` whose transport initialization fails registers neither. -/
theorem session_maps_paired :
    (∀ (es : List SEvent) (sid : String),
      ((runEvents es).transports sid).isSome = ((runEvents es).mcpServers sid).isSome)
    ∧ (∀ (st : SessionState) (q : Option String) (nsid : String),
      (applyEvent st (.post q nsid false)).transports = st.transports
      ∧ (applyEvent st (.post q nsid false)).mcpServers = st.mcpServers) := by
  constructor
  · have key : ∀ (es : List SEvent) (st : SessionState),
        (∀ sid, (st.transports sid).isSome = (st.mcpServers sid).isSome) →
        ∀ sid, ((es.foldl applyEvent st).transports sid).isSome =
          ((es.foldl applyEvent st).mcpServers sid).isSome := by
      intro es
      induction es with
      | nil => intro st h; exact h
      | cons e rest ih =>
        intro st h
        exact ih (applyEvent st e) (applyEvent_paired st e h)
    intro es sid
    exact key es initialSessionState (fun _ => rfl) sid
  · intro st q nsid
    constructor <;> (simp only [applyEvent]; split <;> rfl)

/-- C9: a `DELETE` for a live session id removes that id from both
session maps — whether or not the transport's own processing of the
termination request succeeded (`ok` is arbitrary; the removal sits in the
`finally` block, and a failure there is logged, never fatal: the step
function is total) — and touches no other id's entries. -/
theorem delete_cleanup (st : SessionState) (sid : String) (ok : Bool)
    (h : (st.transports sid).isSome = true) :
    ((applyEvent st (.deleteReq (some sid) ok)).transports sid = none
      ∧ (applyEvent st (.deleteReq (some sid) ok)).mcpServers sid = none)
    ∧ ∀ other, other ≠ sid →
      (applyEvent st (.deleteReq (some sid) ok)).transports other = st.transports other
      ∧ (applyEvent st (.deleteReq (some sid) ok)).mcpServers other = st.mcpServers other := by
  refine ⟨⟨?_, ?_⟩, ?_⟩
  · simp [applyEvent, h, mapSet]
  · simp [applyEvent, h, mapSet]
  · intro other ho
    constructor <;> simp [applyEvent, h, mapSet, ho]

/-- Witness for C9: create session `s1`, then terminate it with the
transport's processing failing; both maps drop `s1`. -/
theorem delete_cleanup_witness :
    (applyEvent (applyEvent initialSessionState (.post none "s1" true))
        (.deleteReq (some "s1") false)).transports "s1" = none
    ∧ (applyEvent (applyEvent initialSessionState (.post none "s1" true))
        (.deleteReq (some "s1") false)).mcpServers "s1" = none :=
  (delete_cleanup (applyEvent initialSessionState (.post none "s1" true)) "s1" false
    (by decide)).1

/-! ## Claim C10: the `create-note` existence check -/

/-- C10: with `overwrite = false` on a `.md` filename, the preliminary
`readNoteAPI` probe decides everything: if the read succeeds the tool
returns the already-exists error result and issues no write; if the read
throws — for any error whatsoever, connection failures and non-404
statuses included, not only not-found — the tool treats the note as
absent and issues exactly one write (which may overwrite an existing
note).  So a write is issued if and only if the probe read throws. -/
theorem createNote_existence_probe (s : Store) (filename content : String) (st : CState)
    (hmd : endsWithSuffix ".md".data filename.data = true) :
    (∀ body, s.read filename = .ok body →
      createNote s filename content false st =
        ({ text := "Note " ++ filename ++ " already exists. Use overwrite=true to replace it.",
           isError := true },
         { st with readCalls := st.readCalls + 1 }))
    ∧ (∀ e, s.read filename = .error e →
      (createNote s filename content false st).2 =
        { st with readCalls := st.readCalls + 1, writeCalls := st.writeCalls + 1 })
    ∧ (∀ e, s.read filename = .error e → s.write filename content = .ok () →
      createNote s filename content false st =
        ({ text := "Successfully " ++ "created" ++ " note: " ++ filename,
           isError := false },
         { st with readCalls := st.readCalls + 1, writeCalls := st.writeCalls + 1 })) := by
  refine ⟨?_, ?_, ?_⟩
  · intro body hread
    simp [createNote, hmd, readNoteCall, hread]
  · intro e hread
    rcases hw : s.write filename content with e' | u <;>
      simp [createNote, hmd, readNoteCall, writeNoteCall, hread, hw]
  · intro e hread hw
    simp [createNote, hmd, readNoteCall, writeNoteCall, hread, hw]

/-- Witness for C10: creating `new.md`, absent from `wStore` (its probe
read fails with a not-found error), issues exactly one probe read and one
write. -/
theorem createNote_existence_probe_witness :
    (createNote wStore "new.md" "hi" false initialCState).2 =
      { initialCState with readCalls := 1, writeCalls := 1 } :=
  (createNote_existence_probe wStore "new.md" "hi" initialCState (by decide)).2.1
    (Err.notFound "new.md") (by decide)

end SBMCP
